import Mathlib

/-!
# Verification of the Solidity signature decoder

Shallow embedding of the declaration-extraction and canonical-signature
engine of `decode_keccak_signatures.js` (two near-duplicate scripts in one
file, separated by a document marker; we call them script 1 and script 2).

The JavaScript regexes are embedded as executable functions over `List Char`
that implement the exact leftmost-match-with-backtracking semantics of the
source patterns.  The digest engine (`web3.utils.keccak256(text).slice(0, 10)`)
is embedded as a full executable Keccak-256 over the UTF-8 bytes of the text
(the hash web3 computes for every string that is not a strict `0x` hex
literal; canonical signature texts always contain a parenthesis and so are
always hashed as UTF-8 text).
-/

namespace SigDecoder

/-! ## Character classes of the JavaScript regexes -/

/-- JavaScript `\w`: ASCII letters, digits and underscore. -/
def isWordChar (c : Char) : Bool :=
  ('a' ≤ c && c ≤ 'z') || ('A' ≤ c && c ≤ 'Z') || ('0' ≤ c && c ≤ '9') || c = '_'

/-- JavaScript `\s` (and the characters `String.prototype.trim` strips),
restricted to the ASCII whitespace actually occurring in source files. -/
def isSp (c : Char) : Bool :=
  c = ' ' || c = '\t' || c = '\n' || c = '\r' || c = '\x0b' || c = '\x0c'

/-- Line terminators, which JavaScript `.` does not match. -/
def isLineTerm (c : Char) : Bool :=
  c = '\n' || c = '\r' || c.toNat = 0x2028 || c.toNat = 0x2029

/-! ## Keccak-256 (the hash behind `web3.utils.keccak256`) -/

/-- Rotate a 64-bit lane left by `k < 64` bits. -/
def rotl64 (x k : Nat) : Nat := ((x <<< k) % (2 ^ 64)) ||| (x >>> (64 - k))

/-- The 24 round constants of Keccak-f[1600]. -/
def keccakRC : List Nat :=
  [0x0000000000000001, 0x0000000000008082, 0x800000000000808a, 0x8000000080008000,
   0x000000000000808b, 0x0000000080000001, 0x8000000080008081, 0x8000000000008009,
   0x000000000000008a, 0x0000000000000088, 0x0000000080008009, 0x000000008000000a,
   0x000000008000808b, 0x800000000000008b, 0x8000000000008089, 0x8000000000008003,
   0x8000000000008002, 0x8000000000000080, 0x000000000000800a, 0x800000008000000a,
   0x8000000080008081, 0x8000000000008080, 0x0000000080000001, 0x8000000080008008]

/-- Source lane index for the combined ρ-π step: the output lane
`(x', y')` (flat index `x' + 5 y'`) is the rotated input lane
`((x' + 3 y') mod 5, x')`. -/
def piSrc : List Nat :=
  [0, 6, 12, 18, 24, 3, 9, 10, 16, 22, 1, 7, 13, 19, 20, 4, 5, 11, 17, 23, 2, 8, 14, 15, 21]

/-- Rotation amount for each output lane of the combined ρ-π step. -/
def piRot : List Nat :=
  [0, 44, 43, 21, 14, 28, 20, 3, 45, 61, 1, 6, 25, 8, 18, 27, 36, 10, 15, 56, 62, 55, 39, 41, 2]

/-- θ step of Keccak-f[1600] on a 25-lane state (flat index `x + 5 y`). -/
def keccakTheta (A : List Nat) : List Nat :=
  let C := (List.range 5).map (fun x =>
    A.getD x 0 ^^^ A.getD (x + 5) 0 ^^^ A.getD (x + 10) 0 ^^^ A.getD (x + 15) 0 ^^^
      A.getD (x + 20) 0)
  let D := (List.range 5).map (fun x =>
    C.getD ((x + 4) % 5) 0 ^^^ rotl64 (C.getD ((x + 1) % 5) 0) 1)
  (List.range 25).map (fun i => A.getD i 0 ^^^ D.getD (i % 5) 0)

/-- Combined ρ and π steps. -/
def keccakRhoPi (A : List Nat) : List Nat :=
  (List.range 25).map (fun i => rotl64 (A.getD (piSrc.getD i 0) 0) (piRot.getD i 0))

/-- χ step: `B[x,y] ^ (¬B[x+1,y] & B[x+2,y])` on each row. -/
def keccakChi (B : List Nat) : List Nat :=
  (List.range 25).map (fun i =>
    B.getD i 0 ^^^
      ((B.getD ((i % 5 + 1) % 5 + 5 * (i / 5)) 0 ^^^ (2 ^ 64 - 1)) &&&
        B.getD ((i % 5 + 2) % 5 + 5 * (i / 5)) 0))

/-- One round: θ, ρ, π, χ, then ι (xor the round constant into lane 0). -/
def keccakRound (A : List Nat) (rc : Nat) : List Nat :=
  let B := keccakChi (keccakRhoPi (keccakTheta A))
  (B.getD 0 0 ^^^ rc) :: B.tail

/-- The full Keccak-f[1600] permutation (24 rounds). -/
def keccakF (A : List Nat) : List Nat := keccakRC.foldl keccakRound A

/-- Keccak (pre-SHA-3) multi-rate padding for rate 1088 bits = 136 bytes:
append `0x01`, zero-fill, and set the top bit of the final rate byte. -/
def padKeccak (msg : List Nat) : List Nat :=
  let padLen := 136 - msg.length % 136
  if padLen = 1 then msg ++ [0x81]
  else msg ++ 0x01 :: List.replicate (padLen - 2) 0 ++ [0x80]

/-- Interpret up to eight bytes as a little-endian 64-bit lane. -/
def laneOfBytes (bs : List Nat) : Nat := bs.foldr (fun b acc => acc * 256 + b) 0

/-- Xor one 136-byte block into the first 17 lanes and permute. -/
def absorbBlock (st block : List Nat) : List Nat :=
  keccakF ((List.range 25).map (fun i =>
    st.getD i 0 ^^^ (if i < 17 then laneOfBytes ((block.drop (8 * i)).take 8) else 0)))

/-- Absorb `n` consecutive 136-byte blocks of `bs`. -/
def absorbBlocks : Nat → List Nat → List Nat → List Nat
  | 0, st, _ => st
  | n + 1, st, bs => absorbBlocks n (absorbBlock st (bs.take 136)) (bs.drop 136)

/-- Absorb a padded message, one 136-byte block at a time. -/
def absorb (st bs : List Nat) : List Nat := absorbBlocks (bs.length / 136) st bs

/-- Squeeze the first 32 bytes (little-endian lanes) of the final state. -/
def keccakOutBytes (st : List Nat) : List Nat :=
  (List.range 32).map (fun i => (st.getD (i / 8) 0 >>> (8 * (i % 8))) % 256)

/-- Keccak-256 of a byte sequence. -/
def keccak256Bytes (msg : List Nat) : List Nat :=
  keccakOutBytes (absorb (List.replicate 25 0) (padKeccak msg))

/-- UTF-8 encoding of one Unicode scalar value. -/
def utf8Char (c : Char) : List Nat :=
  let n := c.toNat
  if n < 128 then [n]
  else if n < 2048 then [192 + n / 64, 128 + n % 64]
  else if n < 65536 then [224 + n / 4096, 128 + n / 64 % 64, 128 + n % 64]
  else [240 + n / 262144, 128 + n / 4096 % 64, 128 + n / 64 % 64, 128 + n % 64]

/-- Concatenate per-character byte sequences. -/
def bytesConcat : List (List Nat) → List Nat
  | [] => []
  | b :: bs => b ++ bytesConcat bs

/-- UTF-8 bytes of a string. -/
def utf8Bytes (s : String) : List Nat := bytesConcat (s.data.map utf8Char)

/-- The sixteen lowercase hexadecimal digits. -/
def hexDigitChars : List Char := "0123456789abcdef".data

/-- Lowercase hex digit of a nibble. -/
def hexChar (n : Nat) : Char := hexDigitChars.getD n '0'

/-- Two lowercase hex digits per byte. -/
def hexOfBytes : List Nat → List Char
  | [] => []
  | b :: bs => hexChar (b / 16) :: hexChar (b % 16) :: hexOfBytes bs

/-- `web3.utils.keccak256` on a (non-hex-literal) string: `0x` followed by
the 64 lowercase hex digits of the Keccak-256 of its UTF-8 bytes. -/
def keccak256Hex (s : String) : String :=
  String.mk ('0' :: 'x' :: hexOfBytes (keccak256Bytes (utf8Bytes s)))

/-- `getKeccak256` (identical in both scripts):
`web3.utils.keccak256(text).slice(0, 10)` — the `0x` prefix plus the first
8 hex digits, i.e. the first 4 bytes of the digest. -/
def getKeccak256 (text : String) : String :=
  String.mk ((keccak256Hex text).data.take 10)

/-! ## Type Canonicalizer

Both scripts run `input.trim().match(/(\w+)(\s+\w+)?(\[\])?$/)` on each raw
parameter fragment.  The pattern is anchored only at the end of the string,
so the engine tries every start position from the left and succeeds at the
first position whose suffix has the shape
`word (whitespace word)? ("[]")?` — the character classes are disjoint, so
the decomposition of a matching suffix into capture groups is unique. -/

/-- JavaScript `String.prototype.trim`. -/
def trimJS (l : List Char) : List Char :=
  ((l.dropWhile isSp).reverse.dropWhile isSp).reverse

/-- Match `(\w+)(\s+\w+)?(\[\])?$` against the whole list `u` (a suffix of
the fragment), returning the first and third capture groups. -/
def matchTail (u : List Char) : Option (List Char × List Char) :=
  let p1 := u.span isWordChar
  if p1.1.isEmpty then none
  else if p1.2.isEmpty then some (p1.1, [])
  else if p1.2 = ['[', ']'] then some (p1.1, ['[', ']'])
  else
    let p2 := p1.2.span isSp
    if p2.1.isEmpty then none
    else
      let p3 := p2.2.span isWordChar
      if p3.1.isEmpty then none
      else if p3.2.isEmpty then some (p1.1, [])
      else if p3.2 = ['[', ']'] then some (p1.1, ['[', ']'])
      else none

/-- Leftmost match: try `matchTail` on every suffix, left to right. -/
def findTail : List Char → Option (List Char × List Char)
  | [] => none
  | c :: cs =>
    match matchTail (c :: cs) with
    | some r => some r
    | none => findTail cs

/-- Script 1's per-fragment canonicalizer:
`match ? match[1] + (match[3] || '') : ''`. -/
def canonicalType (input : String) : String :=
  match findTail (trimJS input.data) with
  | some (w, b) => String.mk (w ++ b)
  | none => ""

/-- Script 2's per-fragment canonicalizer: the unguarded
`input.trim().match(...)[1]`.  It uses only the first capture group and
throws a `TypeError` when there is no match, which we model as `none`. -/
def canonicalType2 (input : String) : Option String :=
  (findTail (trimJS input.data)).map (fun p => String.mk p.1)

/-- JavaScript `Array.prototype.join(sep)`. -/
def joinWith (sep : String) : List String → String
  | [] => ""
  | [x] => x
  | x :: y :: xs => x ++ sep ++ joinWith sep (y :: xs)

/-- Script 1's `getCanonicalForm`: canonicalize each raw parameter and build
the signature text `name(t1,t2,...)`. -/
def getCanonicalForm (name : String) (inputs : List String) : String :=
  name ++ "(" ++ joinWith "," (inputs.map canonicalType) ++ ")"

/-- Script 2's `getCanonicalForm`; `none` models the `TypeError` its
canonicalizer throws on a fragment with no match. -/
def getCanonicalForm2 (name : String) (inputs : List String) : Option String :=
  (inputs.mapM canonicalType2).map
    (fun types => name ++ "(" ++ joinWith "," types ++ ")")

/-! ## Declaration Matcher

Each JavaScript line-level regex is embedded as a leftmost scan that, at
every start position, runs the (deterministic, because the relevant
character classes are disjoint) backtracking continuation of the pattern. -/

/-- Whether `p` is an initial segment of `l`. -/
def listStarts : List Char → List Char → Bool
  | [], _ => true
  | _ :: _, [] => false
  | p :: ps, c :: cs => p = c && listStarts ps cs

/-- Lazy `(.*?)` followed by the literal `stop`: the shortest prefix (which
may not contain a line terminator, since `.` does not match one) that is
followed by `stop`.  Returns the prefix and the remainder after `stop`. -/
def lazyScan (stop : List Char) : List Char → Option (List Char × List Char)
  | [] => if stop.isEmpty then some ([], []) else none
  | c :: cs =>
    if listStarts stop (c :: cs) then some ([], (c :: cs).drop stop.length)
    else if isLineTerm c then none
    else (lazyScan stop cs).map (fun p => (c :: p.1, p.2))

/-- Continuation of `/function\s+(\w+)\s*\((.*?)\)\s*/` after the literal
`function`: whitespace, the name, optional whitespace, `(`, then the lazy
parameter group up to the first `)`. -/
def afterFunc (u : List Char) : Option (String × String) :=
  let sp := u.span isSp
  if sp.1.isEmpty then none
  else
    let nm := sp.2.span isWordChar
    if nm.1.isEmpty then none
    else
      match (nm.2.span isSp).2 with
      | '(' :: r4 =>
        (lazyScan [')'] r4).map (fun p => (String.mk nm.1, String.mk p.1))
      | _ => none

/-- Leftmost scan for `/function\s+(\w+)\s*\((.*?)\)\s*/`, returning the
name and raw parameter-list captures. -/
def lineFuncGo : List Char → Option (String × String)
  | [] => none
  | c :: cs =>
    if listStarts "function".data (c :: cs) then
      match afterFunc ((c :: cs).drop 8) with
      | some r => some r
      | none => lineFuncGo cs
    else lineFuncGo cs

/-- Match a line against the function pattern (both scripts). -/
def lineFunc (l : List Char) : Option (String × String) := lineFuncGo l

/-- Continuation of `/error\s+(\w+)\s*\((.*?)\);/` after the literal
`error`: like `afterFunc`, but the lazy group must be closed by `);` on the
same line. -/
def afterError (u : List Char) : Option (String × String) :=
  let sp := u.span isSp
  if sp.1.isEmpty then none
  else
    let nm := sp.2.span isWordChar
    if nm.1.isEmpty then none
    else
      match (nm.2.span isSp).2 with
      | '(' :: r4 =>
        (lazyScan [')', ';'] r4).map (fun p => (String.mk nm.1, String.mk p.1))
      | _ => none

/-- Leftmost scan for `/error\s+(\w+)\s*\((.*?)\);/`. -/
def lineErrGo : List Char → Option (String × String)
  | [] => none
  | c :: cs =>
    if listStarts "error".data (c :: cs) then
      match afterError ((c :: cs).drop 5) with
      | some r => some r
      | none => lineErrGo cs
    else lineErrGo cs

/-- Match a line against the custom-error pattern (both scripts). -/
def lineErr (l : List Char) : Option (String × String) := lineErrGo l

/-- Continuation of `/require\((.*?),\s*"(.*?)"\);\s*/` after a comma
candidate: `\s*` then `"`, then the lazy message group up to the first
`");`. -/
def reqCont (r1 : List Char) : Option (List Char) :=
  match (r1.span isSp).2 with
  | '"' :: r3 => (lazyScan ['"', ')', ';'] r3).map (fun p => p.1)
  | _ => none

/-- Lazy scan for the condition group of the require pattern: grow the
first `(.*?)` one character at a time (it may not cross a line terminator)
and, at each comma, try the rest of the pattern. -/
def reqArgs (acc : List Char) : List Char → Option (String × String)
  | [] => none
  | c :: cs =>
    if isLineTerm c then none
    else if c = ',' then
      match reqCont cs with
      | some msg => some (String.mk acc.reverse, String.mk msg)
      | none => reqArgs (c :: acc) cs
    else reqArgs (c :: acc) cs

/-- Leftmost scan for `/require\((.*?),\s*"(.*?)"\);\s*/`, returning the
condition and message captures. -/
def lineReqGo : List Char → Option (String × String)
  | [] => none
  | c :: cs =>
    if listStarts "require(".data (c :: cs) then
      match reqArgs [] ((c :: cs).drop 8) with
      | some r => some r
      | none => lineReqGo cs
    else lineReqGo cs

/-- Match a line against the require pattern (both scripts). -/
def lineReq (l : List Char) : Option (String × String) := lineReqGo l

/-- Continuation of `/\b(\w+)\s+(\w+)\s*=\s*(.*);/` at a word-boundary
start: two whitespace-separated words, `=` (with optional surrounding
whitespace), and a `;` somewhere before the next line terminator.  Returns
the two word captures, bound in the script as `type` and `name`. -/
def varMatchAt (u : List Char) : Option (String × String) :=
  let w1 := u.span isWordChar
  if w1.1.isEmpty then none
  else
    let s1 := w1.2.span isSp
    if s1.1.isEmpty then none
    else
      let w2 := s1.2.span isWordChar
      if w2.1.isEmpty then none
      else
        match (w2.2.span isSp).2 with
        | '=' :: r5 =>
          if (((r5.span isSp).2.takeWhile (fun c => !isLineTerm c)).contains ';') then
            some (String.mk w1.1, String.mk w2.1)
          else none
        | _ => none

/-- Leftmost scan for `/\b(\w+)\s+(\w+)\s*=\s*(.*);/`; the boolean tracks
whether the previous character was a word character (for `\b`). -/
def varFindGo : Bool → List Char → Option (String × String)
  | _, [] => none
  | prevW, c :: cs =>
    if !prevW && isWordChar c then
      match varMatchAt (c :: cs) with
      | some r => some r
      | none => varFindGo true cs
    else varFindGo (isWordChar c) cs

/-- Match a line against the assignment pattern used for getter synthesis
(script 2 only). -/
def lineVar (l : List Char) : Option (String × String) := varFindGo false l

/-- Scan for `/\bpublic\b/`. -/
def pubGo : Bool → List Char → Bool
  | _, [] => false
  | prevW, c :: cs =>
    if !prevW && listStarts "public".data (c :: cs)
        && !isWordChar (((c :: cs).drop 6).headD ' ') then true
    else pubGo (isWordChar c) cs

/-- Whether a line contains the standalone word `public` (script 2's
`publicVarMatch`). -/
def hasWordPublic (l : List Char) : Bool := pubGo false l

/-! ## Signature Builder and Extraction Driver -/

/-- JavaScript `String.prototype.split(sep)` for a one-character separator:
the (possibly empty) pieces between occurrences of `sep`. -/
def splitChar (sep : Char) : List Char → List String
  | [] => [""]
  | c :: cs =>
    if c = sep then "" :: splitChar sep cs
    else
      match splitChar sep cs with
      | [] => [String.mk [c]]
      | piece :: rest => (String.mk (c :: piece.data)) :: rest

/-- Raw parameter fragments: `params.split(',').filter(Boolean)`. -/
def inputsOf (params : String) : List String :=
  (splitChar ',' params.data).filter (fun s => s ≠ "")

/-- A record pushed onto `functions`, `errors` or `requires`:
1-indexed line, canonical text, and truncated digest. -/
structure LineRec where
  line : Nat
  text : String
  signature : String
deriving DecidableEq

/-- A record pushed onto `getters` (script 2); it carries no line number. -/
structure GetterRec where
  text : String
  signature : String
deriving DecidableEq

/-- Script 1, function branch of the per-line callback (0-indexed `i`). -/
def funcRec1 (i : Nat) (l : List Char) : Option LineRec :=
  (lineFunc l).map (fun p =>
    let cf := getCanonicalForm p.1 (inputsOf p.2)
    ⟨i + 1, cf, getKeccak256 cf⟩)

/-- Script 1, custom-error branch of the per-line callback. -/
def errRec1 (i : Nat) (l : List Char) : Option LineRec :=
  (lineErr l).map (fun p =>
    let cf := getCanonicalForm p.1 (inputsOf p.2)
    ⟨i + 1, cf, getKeccak256 cf⟩)

/-- Require branch of the per-line callback (identical in both scripts):
the stored text is the reconstructed statement, the digest is computed over
the message alone. -/
def reqRec (i : Nat) (l : List Char) : Option LineRec :=
  (lineReq l).map (fun p =>
    ⟨i + 1, "require(" ++ p.1 ++ ", \"" ++ p.2 ++ "\")", getKeccak256 p.2⟩)

/-- Output of script 1's `calculateSignatures`. -/
structure Recs1 where
  functions : List LineRec
  errors : List LineRec
  requireStmts : List LineRec
deriving DecidableEq

/-- Script 1's `calculateSignatures`: split the source on newlines and run
the three matchers independently on every line, collecting the records of
each kind in line order. -/
def calculateSignatures1 (source : String) : Recs1 :=
  let ls := (splitChar '\n' source.data).enum
  ⟨ls.filterMap (fun p => funcRec1 p.1 p.2.data),
   ls.filterMap (fun p => errRec1 p.1 p.2.data),
   ls.filterMap (fun p => reqRec p.1 p.2.data)⟩

/-- Script 2, function branch.  The outer `none` models the `TypeError`
thrown by its unguarded canonicalizer, which aborts the whole file; the
inner option is "no record for this line". -/
def funcRec2 (i : Nat) (l : List Char) : Option (Option LineRec) :=
  match lineFunc l with
  | none => some none
  | some p =>
    (getCanonicalForm2 p.1 (inputsOf p.2)).map
      (fun cf => some ⟨i + 1, cf, getKeccak256 cf⟩)

/-- Script 2, custom-error branch. -/
def errRec2 (i : Nat) (l : List Char) : Option (Option LineRec) :=
  match lineErr l with
  | none => some none
  | some p =>
    (getCanonicalForm2 p.1 (inputsOf p.2)).map
      (fun cf => some ⟨i + 1, cf, getKeccak256 cf⟩)

/-- Script 2, public-variable branch: when the line contains the word
`public` and matches the assignment pattern, synthesize the getter
signature `getCanonicalForm(name, [type])`. -/
def getterRec2 (l : List Char) : Option (Option GetterRec) :=
  if hasWordPublic l then
    match lineVar l with
    | none => some none
    | some p =>
      (getCanonicalForm2 p.2 [p.1]).map (fun cf => some ⟨cf, getKeccak256 cf⟩)
  else some none

/-- Output of script 2's `calculateSignatures`. -/
structure Recs2 where
  functions : List LineRec
  errors : List LineRec
  requireStmts : List LineRec
  getters : List GetterRec
deriving DecidableEq

/-- Per-line loop of script 2; `none` propagates a thrown `TypeError`, in
which case the file produces no output at all. -/
def go2 : Nat → List String → Option Recs2
  | _, [] => some ⟨[], [], [], []⟩
  | i, l :: ls => do
    let f ← funcRec2 i l.data
    let e ← errRec2 i l.data
    let r := reqRec i l.data
    let g ← getterRec2 l.data
    let rest ← go2 (i + 1) ls
    pure ⟨f.toList ++ rest.functions, e.toList ++ rest.errors,
          r.toList ++ rest.requireStmts, g.toList ++ rest.getters⟩

/-- Script 2's `calculateSignatures`. -/
def calculateSignatures2 (source : String) : Option Recs2 :=
  go2 0 (splitChar '\n' source.data)

end SigDecoder

namespace SigDecoder

set_option maxRecDepth 100000

/-! ## Helper lemmas -/

/-- A record is produced by the enumerated per-line `filterMap` exactly when
some line (by 0-based index) produces it. -/
theorem mem_enumFilterMap {β : Type} (f : Nat → String → Option β) (ls : List String) (b : β) :
    b ∈ ls.enum.filterMap (fun p => f p.1 p.2) ↔ ∃ i a, ls[i]? = some a ∧ f i a = some b := by
  constructor
  · intro h
    rw [List.mem_filterMap] at h
    obtain ⟨⟨i, a⟩, hmem, hf⟩ := h
    exact ⟨i, a, List.mk_mem_enum_iff_getElem?.1 hmem, hf⟩
  · rintro ⟨i, a, hi, hf⟩
    rw [List.mem_filterMap]
    exact ⟨(i, a), List.mk_mem_enum_iff_getElem?.2 hi, hf⟩

/-! ## C1 -/

/-- C1: the Type Canonicalizer evaluated at the claim's own examples.  The
regex `(\w+)(\s+\w+)?(\[\])?$` is anchored only at the end of the fragment,
so on a three-word fragment the leftmost match starts at the second-to-last
word: the storage-location keyword, not the first word, is returned as the
type token (`calldata` and `memory` instead of `uint256` and `address[]`). -/
theorem c1_canonicalType_eval :
    canonicalType "uint256 calldata x" = "calldata" ∧
    canonicalType "address[] memory r" = "memory" ∧
    getCanonicalForm "f" ["uint256 calldata x"] = "f(calldata)" := by decide

/-! ## C2 -/

/-- C2: on the claim's example line the getter matcher
`/\b(\w+)\s+(\w+)\s*=\s*(.*);/` first matches at `public totalSupply = 0;`,
binding the captured `type` to `public`, so the synthesized getter text is
`totalSupply(public)`, not `totalSupply(uint256)`. -/
theorem c2_getter_type_is_public :
    (calculateSignatures2 "uint256 public totalSupply = 0;").map Recs2.getters =
      some [⟨"totalSupply(public)", getKeccak256 "totalSupply(public)"⟩] := by decide

/-! ## Inversion lemmas for the per-line record builders -/

/-- A function record emitted by script 2 for 0-indexed line `i` carries
line number `i + 1` and a digest produced by `getKeccak256`. -/
theorem funcRec2_inv {i : Nat} {l : List Char} {r : LineRec}
    (h : funcRec2 i l = some (some r)) :
    r.line = i + 1 ∧ ∃ t, r.signature = getKeccak256 t := by
  unfold funcRec2 at h
  split at h
  · simp at h
  · rcases hcf : getCanonicalForm2 _ _ with _ | cf <;> rw [hcf] at h <;> simp at h
    exact h ▸ ⟨rfl, cf, rfl⟩

/-- Analogue of `funcRec2_inv` for custom-error records. -/
theorem errRec2_inv {i : Nat} {l : List Char} {r : LineRec}
    (h : errRec2 i l = some (some r)) :
    r.line = i + 1 ∧ ∃ t, r.signature = getKeccak256 t := by
  unfold errRec2 at h
  split at h
  · simp at h
  · rcases hcf : getCanonicalForm2 _ _ with _ | cf <;> rw [hcf] at h <;> simp at h
    exact h ▸ ⟨rfl, cf, rfl⟩

/-- A require record carries line number `i + 1` and a digest produced by
`getKeccak256` (over the message, not over the stored text). -/
theorem reqRec_inv {i : Nat} {l : List Char} {r : LineRec}
    (h : reqRec i l = some r) :
    r.line = i + 1 ∧ ∃ t, r.signature = getKeccak256 t := by
  unfold reqRec at h
  rcases hm : lineReq l with _ | ⟨c, m⟩ <;> rw [hm] at h <;> simp at h
  exact h ▸ ⟨rfl, m, rfl⟩

/-- A getter record's digest is produced by `getKeccak256`. -/
theorem getterRec2_inv {l : List Char} {g : GetterRec}
    (h : getterRec2 l = some (some g)) :
    ∃ t, g.signature = getKeccak256 t := by
  unfold getterRec2 at h
  split at h
  · split at h
    · simp at h
    · rcases hcf : getCanonicalForm2 _ _ with _ | cf <;> rw [hcf] at h <;> simp at h
      exact h ▸ ⟨cf, rfl⟩
  · simp at h

/-- Structure of a successful run of script 2's per-line loop: every record
of a line-tagged kind has a line number greater than the starting index and
a `getKeccak256` digest, every getter has a `getKeccak256` digest, and the
line numbers within each kind are pairwise distinct. -/
theorem go2_inv (ls : List String) : ∀ (i : Nat) (recs : Recs2), go2 i ls = some recs →
    (∀ r ∈ recs.functions, i < r.line ∧ ∃ t, r.signature = getKeccak256 t) ∧
    (∀ r ∈ recs.errors, i < r.line ∧ ∃ t, r.signature = getKeccak256 t) ∧
    (∀ r ∈ recs.requireStmts, i < r.line ∧ ∃ t, r.signature = getKeccak256 t) ∧
    (∀ g ∈ recs.getters, ∃ t, g.signature = getKeccak256 t) ∧
    recs.functions.Pairwise (fun a b => a.line ≠ b.line) ∧
    recs.errors.Pairwise (fun a b => a.line ≠ b.line) ∧
    recs.requireStmts.Pairwise (fun a b => a.line ≠ b.line) := by
  induction ls with
  | nil =>
    intro i recs h
    simp only [go2] at h
    obtain rfl : Recs2.mk [] [] [] [] = recs := by injection h
    simp
  | cons l ls ih =>
    intro i recs h
    simp only [go2, bind, Option.bind] at h
    rcases hf : funcRec2 i l.data with _ | f <;> rw [hf] at h
    · exact absurd h (by simp)
    rcases he : errRec2 i l.data with _ | e <;> rw [he] at h
    · exact absurd h (by simp)
    rcases hg : getterRec2 l.data with _ | g <;> rw [hg] at h
    · exact absurd h (by simp)
    rcases hrest : go2 (i + 1) ls with _ | rest <;> rw [hrest] at h
    · exact absurd h (by simp)
    obtain rfl :
        Recs2.mk (f.toList ++ rest.functions) (e.toList ++ rest.errors)
          ((reqRec i l.data).toList ++ rest.requireStmts) (g.toList ++ rest.getters) = recs := by
      injection h
    obtain ⟨ihf, ihe, ihr, ihg, ihpf, ihpe, ihpr⟩ := ih (i + 1) rest hrest
    have hfl : ∀ r ∈ f.toList, r.line = i + 1 ∧ ∃ t, r.signature = getKeccak256 t := by
      intro r hr
      cases f with
      | none => simp at hr
      | some r0 =>
        obtain rfl : r = r0 := by simpa using hr
        exact funcRec2_inv hf
    have hel : ∀ r ∈ e.toList, r.line = i + 1 ∧ ∃ t, r.signature = getKeccak256 t := by
      intro r hr
      cases e with
      | none => simp at hr
      | some r0 =>
        obtain rfl : r = r0 := by simpa using hr
        exact errRec2_inv he
    have hrl : ∀ r ∈ (reqRec i l.data).toList,
        r.line = i + 1 ∧ ∃ t, r.signature = getKeccak256 t := by
      intro r hr
      rcases hq : reqRec i l.data with _ | r0 <;> rw [hq] at hr
      · simp at hr
      · obtain rfl : r = r0 := by simpa using hr
        exact reqRec_inv hq
    have hgl : ∀ x ∈ g.toList, ∃ t, x.signature = getKeccak256 t := by
      intro x hx
      cases g with
      | none => simp at hx
      | some g0 =>
        obtain rfl : x = g0 := by simpa using hx
        exact getterRec2_inv hg
    have single : ∀ (o : Option LineRec), o.toList.Pairwise
        (fun a b : LineRec => a.line ≠ b.line) := by
      intro o; cases o <;> simp
    refine ⟨?_, ?_, ?_, ?_, ?_, ?_, ?_⟩
    · intro r hr
      rcases List.mem_append.1 hr with hr | hr
      · exact ⟨(hfl r hr).1 ▸ Nat.lt_succ_self i, (hfl r hr).2⟩
      · exact ⟨Nat.lt_of_succ_lt (ihf r hr).1, (ihf r hr).2⟩
    · intro r hr
      rcases List.mem_append.1 hr with hr | hr
      · exact ⟨(hel r hr).1 ▸ Nat.lt_succ_self i, (hel r hr).2⟩
      · exact ⟨Nat.lt_of_succ_lt (ihe r hr).1, (ihe r hr).2⟩
    · intro r hr
      rcases List.mem_append.1 hr with hr | hr
      · exact ⟨(hrl r hr).1 ▸ Nat.lt_succ_self i, (hrl r hr).2⟩
      · exact ⟨Nat.lt_of_succ_lt (ihr r hr).1, (ihr r hr).2⟩
    · intro x hx
      rcases List.mem_append.1 hx with hx | hx
      · exact hgl x hx
      · exact ihg x hx
    · refine List.pairwise_append.2 ⟨single f, ihpf, ?_⟩
      intro a ha b hb
      have h1 := (hfl a ha).1
      have h2 := (ihf b hb).1
      omega
    · refine List.pairwise_append.2 ⟨single e, ihpe, ?_⟩
      intro a ha b hb
      have h1 := (hel a ha).1
      have h2 := (ihe b hb).1
      omega
    · refine List.pairwise_append.2 ⟨single (reqRec i l.data), ihpr, ?_⟩
      intro a ha b hb
      have h1 := (hrl a ha).1
      have h2 := (ihr b hb).1
      omega

/-! ## C3 -/

/-- C3 counterexample: the matcher rules are not first-match-wins — the
single line `function f() require(x > 0, "m");` yields both a function
record and a require record. -/
theorem c3_counterexample :
    (calculateSignatures2 "function f() require(x > 0, \"m\");").map
      (fun r => (r.functions.map LineRec.text, r.requireStmts.map LineRec.text)) =
      some (["f()"], ["require(x > 0, \"m\")"]) := by decide

/-- C3 as amended: the four matcher rules are tried independently on every
line, so a line may yield records of several kinds at once, but it yields
at most one record of each kind — within each kind the line numbers of the
emitted records are pairwise distinct. -/
theorem c3_amended (src : String) (recs : Recs2)
    (h : calculateSignatures2 src = some recs) :
    recs.functions.Pairwise (fun a b => a.line ≠ b.line) ∧
    recs.errors.Pairwise (fun a b => a.line ≠ b.line) ∧
    recs.requireStmts.Pairwise (fun a b => a.line ≠ b.line) := by
  obtain ⟨-, -, -, -, h1, h2, h3⟩ := go2_inv (splitChar '\n' src.data) 0 recs h
  exact ⟨h1, h2, h3⟩

/-- Witness for `c3_amended` at a two-line source. -/
theorem c3_amended_witness :
    ([⟨1, "f()", getKeccak256 "f()"⟩] : List LineRec).Pairwise
      (fun a b => a.line ≠ b.line) ∧
    ([⟨2, "E()", getKeccak256 "E()"⟩] : List LineRec).Pairwise
      (fun a b => a.line ≠ b.line) ∧
    ([] : List LineRec).Pairwise (fun a b => a.line ≠ b.line) :=
  c3_amended "function f()\nerror E();"
    ⟨[⟨1, "f()", getKeccak256 "f()"⟩], [⟨2, "E()", getKeccak256 "E()"⟩], [], []⟩ (by decide)

/-! ## C4 -/

/-- C4 counterexample: the require record's stored canonical text is the
reconstructed statement `require(condition, "message")`, not the bare
message string. -/
theorem c4_counterexample :
    (calculateSignatures1 "require(balance >= amount, \"Insufficient balance\");"
        ).requireStmts.map LineRec.text =
      ["require(balance >= amount, \"Insufficient balance\")"] ∧
    "require(balance >= amount, \"Insufficient balance\")" ≠ "Insufficient balance" := by
  decide

/-- C4 as amended: for every line matching the require pattern, the emitted
record's digest is computed over the literal message string alone, but its
canonical text field is the reconstructed statement
`require(condition, "message")`, not the bare message. -/
theorem c4_amended (src : String) (i : Nat) (line c m : String)
    (hline : (splitChar '\n' src.data)[i]? = some line)
    (hm : lineReq line.data = some (c, m)) :
    ∃ r ∈ (calculateSignatures1 src).requireStmts,
      r.line = i + 1 ∧ r.text = "require(" ++ c ++ ", \"" ++ m ++ "\")" ∧
      r.signature = getKeccak256 m := by
  refine ⟨⟨i + 1, "require(" ++ c ++ ", \"" ++ m ++ "\")", getKeccak256 m⟩, ?_, rfl, rfl, rfl⟩
  exact (mem_enumFilterMap (fun j a => reqRec j a.data) _ _).2
    ⟨i, line, hline, by simp [reqRec, hm]⟩

/-- Witness for `c4_amended` at the claim's example line. -/
theorem c4_amended_witness :
    ∃ r ∈ (calculateSignatures1
        "require(balance >= amount, \"Insufficient balance\");").requireStmts,
      r.line = 0 + 1 ∧
      r.text = "require(" ++ "balance >= amount" ++ ", \"" ++ "Insufficient balance" ++ "\")" ∧
      r.signature = getKeccak256 "Insufficient balance" :=
  c4_amended _ 0 "require(balance >= amount, \"Insufficient balance\");"
    "balance >= amount" "Insufficient balance" (by decide) (by decide)

/-! ## C5 -/

/-- Lists all of whose characters fail `isWordChar` admit no match of the
canonicalizer regex at any position. -/
theorem findTail_eq_none {l : List Char} (h : ∀ c ∈ l, isWordChar c = false) :
    findTail l = none := by
  induction l with
  | nil => rfl
  | cons c cs ih =>
    have hc : isWordChar c = false := h c (by simp)
    have hm : matchTail (c :: cs) = none := by
      unfold matchTail
      rw [List.span_eq_take_drop]
      simp [List.takeWhile_cons, hc]
    simp only [findTail, hm]
    exact ih (fun x hx => h x (by simp [hx]))

/-- Trimming only removes characters. -/
theorem mem_trimJS {c : Char} {l : List Char} (h : c ∈ trimJS l) : c ∈ l := by
  unfold trimJS at h
  rw [List.mem_reverse] at h
  have h1 := (List.dropWhile_sublist isSp).mem h
  rw [List.mem_reverse] at h1
  exact (List.dropWhile_sublist isSp).mem h1

/-- C5 counterexample: script 2's unguarded canonicalizer throws on a
whitespace-only fragment (modelled as `none`), and this aborts the whole
file: a function line with such a fragment yields no output at all. -/
theorem c5_counterexample :
    canonicalType2 " " = none ∧ calculateSignatures2 "function f( , )" = none := by
  decide

/-- C5 as amended: on a fragment with no word character, script 1's guarded
canonicalizer returns the empty token and never fails, while script 2's
unguarded canonicalizer throws (returns `none`). -/
theorem c5_amended (s : String) (h : ∀ c ∈ s.data, isWordChar c = false) :
    canonicalType s = "" ∧ canonicalType2 s = none := by
  have hnone : findTail (trimJS s.data) = none :=
    findTail_eq_none (fun c hc => h c (mem_trimJS hc))
  constructor
  · simp [canonicalType, hnone]
  · simp [canonicalType2, hnone]

/-- Witness for `c5_amended` at a whitespace-only fragment. -/
theorem c5_amended_witness : canonicalType "   " = "" ∧ canonicalType2 "   " = none :=
  c5_amended "   " (by decide)

/-! ## C9 -/

/-- The `(\[\])?` capture of the canonicalizer regex on a fragment (empty
when the regex does not match). -/
def bracketCapture (s : String) : String :=
  match findTail (trimJS s.data) with
  | some p => String.mk p.2
  | none => ""

/-- C9 counterexample: the two scripts' canonicalizers differ on the
array-typed fragment `address[]` — script 1 appends the captured `[]`,
script 2 uses only the first capture group. -/
theorem c9_counterexample :
    canonicalType "address[]" = "address[]" ∧
    canonicalType2 "address[]" = some "address" ∧
    ("address[]" : String) ≠ "address" := by decide

/-- C9 as amended: wherever script 2's canonicalizer is defined it returns
the first capture group alone, and script 1 returns the same token with the
captured `[]` suffix appended (so the two agree exactly when that capture
is empty); where script 2 throws, script 1 returns the empty token. -/
theorem c9_amended (s : String) :
    (∀ t, canonicalType2 s = some t → canonicalType s = t ++ bracketCapture s) ∧
    (canonicalType2 s = none → canonicalType s = "") := by
  unfold canonicalType canonicalType2 bracketCapture
  rcases h : findTail (trimJS s.data) with _ | ⟨w, b⟩
  · simp
  · refine ⟨?_, by simp⟩
    intro t ht
    obtain rfl : String.mk w = t := by simpa using ht
    rfl

/-- Witness for `c9_amended` on an array-typed fragment and on a fragment
with no match. -/
theorem c9_amended_witness :
    canonicalType "uint256 amounts[]" = "uint256" ++ bracketCapture "uint256 amounts[]" ∧
    canonicalType "  " = "" :=
  ⟨(c9_amended "uint256 amounts[]").1 "uint256" (by decide),
   (c9_amended "  ").2 (by decide)⟩

/-! ## C6 -/

/-- C6: every line matching the function pattern contributes a record whose
canonical text is `name(t1,t2,...)` — each `ti` the canonicalizer output for
the corresponding kept raw parameter, in order, with empty parameter lists
giving `name()` — and whose digest is `getKeccak256` of that text; on the
claim's example line the record is exactly
`transfer(address,uint256)` with selector `0xa9059cbb`. -/
theorem c6_function_canonical_text :
    (∀ (src : String) (i : Nat) (line n p : String),
        (splitChar '\n' src.data)[i]? = some line →
        lineFunc line.data = some (n, p) →
        ∃ r ∈ (calculateSignatures1 src).functions,
          r.line = i + 1 ∧
          r.text = n ++ "(" ++ joinWith "," ((inputsOf p).map canonicalType) ++ ")" ∧
          (inputsOf p = [] → r.text = n ++ "()") ∧
          r.signature = getKeccak256 r.text) ∧
    (calculateSignatures1
        "function transfer(address to, uint256 amount) public returns (bool)").functions =
      [⟨1, "transfer(address,uint256)", "0xa9059cbb"⟩] := by
  constructor
  · intro src i line n p hline hm
    refine ⟨⟨i + 1, getCanonicalForm n (inputsOf p),
        getKeccak256 (getCanonicalForm n (inputsOf p))⟩, ?_, rfl, rfl, ?_, rfl⟩
    · exact (mem_enumFilterMap (fun j a => funcRec1 j a.data) _ _).2
        ⟨i, line, hline, by simp [funcRec1, hm]⟩
    · intro hempty
      show getCanonicalForm n (inputsOf p) = n ++ "()"
      rw [hempty]
      show n ++ "(" ++ joinWith "," [] ++ ")" = n ++ "()"
      rcases n with ⟨d⟩
      show String.mk ((d ++ "(".data ++ "".data) ++ ")".data) = String.mk (d ++ "()".data)
      simp
  · decide

/-- Witness for the universal part of `c6_function_canonical_text` at the
claim's example line. -/
theorem c6_witness :
    ∃ r ∈ (calculateSignatures1
        "function transfer(address to, uint256 amount) public returns (bool)").functions,
      r.line = 0 + 1 ∧
      r.text = "transfer" ++ "(" ++
        joinWith "," ((inputsOf "address to, uint256 amount").map canonicalType) ++ ")" ∧
      (inputsOf "address to, uint256 amount" = [] → r.text = "transfer" ++ "()") ∧
      r.signature = getKeccak256 r.text :=
  c6_function_canonical_text.1 _ 0
    "function transfer(address to, uint256 amount) public returns (bool)"
    "transfer" "address to, uint256 amount" (by decide) (by decide)

/-! ## C8 -/

/-- C8: line fidelity for all three line-tagged kinds of script 1.  A match
on the line with 0-based index `i` (1-based index `i + 1`) contributes a
record with line number exactly `i + 1`, and conversely every emitted
record points back (via its line number) to a line that matches its
pattern. -/
theorem c8_line_fidelity :
    (∀ (src : String) (i : Nat) (line : String),
        (splitChar '\n' src.data)[i]? = some line →
        ((∀ q, lineFunc line.data = some q →
            ∃ r ∈ (calculateSignatures1 src).functions, r.line = i + 1) ∧
         (∀ q, lineErr line.data = some q →
            ∃ r ∈ (calculateSignatures1 src).errors, r.line = i + 1) ∧
         (∀ q, lineReq line.data = some q →
            ∃ r ∈ (calculateSignatures1 src).requireStmts, r.line = i + 1))) ∧
    (∀ src : String,
        (∀ r ∈ (calculateSignatures1 src).functions, ∃ line,
          (splitChar '\n' src.data)[r.line - 1]? = some line ∧
          (lineFunc line.data).isSome = true) ∧
        (∀ r ∈ (calculateSignatures1 src).errors, ∃ line,
          (splitChar '\n' src.data)[r.line - 1]? = some line ∧
          (lineErr line.data).isSome = true) ∧
        (∀ r ∈ (calculateSignatures1 src).requireStmts, ∃ line,
          (splitChar '\n' src.data)[r.line - 1]? = some line ∧
          (lineReq line.data).isSome = true)) := by
  constructor
  · intro src i line hline
    refine ⟨fun q hq => ?_, fun q hq => ?_, fun q hq => ?_⟩
    · exact ⟨⟨i + 1, getCanonicalForm q.1 (inputsOf q.2),
          getKeccak256 (getCanonicalForm q.1 (inputsOf q.2))⟩,
        (mem_enumFilterMap (fun j a => funcRec1 j a.data) _ _).2
          ⟨i, line, hline, by simp [funcRec1, hq]⟩, rfl⟩
    · exact ⟨⟨i + 1, getCanonicalForm q.1 (inputsOf q.2),
          getKeccak256 (getCanonicalForm q.1 (inputsOf q.2))⟩,
        (mem_enumFilterMap (fun j a => errRec1 j a.data) _ _).2
          ⟨i, line, hline, by simp [errRec1, hq]⟩, rfl⟩
    · exact ⟨⟨i + 1, "require(" ++ q.1 ++ ", \"" ++ q.2 ++ "\")", getKeccak256 q.2⟩,
        (mem_enumFilterMap (fun j a => reqRec j a.data) _ _).2
          ⟨i, line, hline, by simp [reqRec, hq]⟩, rfl⟩
  · intro src
    refine ⟨fun r hr => ?_, fun r hr => ?_, fun r hr => ?_⟩
    · obtain ⟨i, a, hi, hf⟩ := (mem_enumFilterMap (fun j a => funcRec1 j a.data) _ _).1 hr
      have hline : r.line = i + 1 := by
        unfold funcRec1 at hf
        rcases hq : lineFunc a.data with _ | q <;> rw [hq] at hf <;> simp at hf
        exact hf ▸ rfl
      refine ⟨a, by rw [hline]; simpa using hi, ?_⟩
      unfold funcRec1 at hf
      rcases hq : lineFunc a.data with _ | q <;> rw [hq] at hf <;> simp at hf ⊢
    · obtain ⟨i, a, hi, hf⟩ := (mem_enumFilterMap (fun j a => errRec1 j a.data) _ _).1 hr
      have hline : r.line = i + 1 := by
        unfold errRec1 at hf
        rcases hq : lineErr a.data with _ | q <;> rw [hq] at hf <;> simp at hf
        exact hf ▸ rfl
      refine ⟨a, by rw [hline]; simpa using hi, ?_⟩
      unfold errRec1 at hf
      rcases hq : lineErr a.data with _ | q <;> rw [hq] at hf <;> simp at hf ⊢
    · obtain ⟨i, a, hi, hf⟩ := (mem_enumFilterMap (fun j a => reqRec j a.data) _ _).1 hr
      have hline : r.line = i + 1 := by
        unfold reqRec at hf
        rcases hq : lineReq a.data with _ | q <;> rw [hq] at hf <;> simp at hf
        exact hf ▸ rfl
      refine ⟨a, by rw [hline]; simpa using hi, ?_⟩
      unfold reqRec at hf
      rcases hq : lineReq a.data with _ | q <;> rw [hq] at hf <;> simp at hf ⊢

/-- Witness for `c8_line_fidelity`: the function declared on the second
line of a two-line source yields a record with line number 2. -/
theorem c8_witness :
    ∃ r ∈ (calculateSignatures1 "x\nfunction f()").functions, r.line = 1 + 1 :=
  ((c8_line_fidelity.1 "x\nfunction f()" 1 "function f()" (by decide)).1) ("f", "") (by decide)

/-! ## C7 -/

/-- Digest format asserted by C7: ten characters, a `0x` prefix, and the
remaining eight characters lowercase hexadecimal digits. -/
def digestFormat (s : String) : Prop :=
  s.data.length = 10 ∧ s.data.take 2 = ['0', 'x'] ∧ ∀ c ∈ s.data.drop 2, c ∈ hexDigitChars

/-- Every nibble digit is a lowercase hexadecimal character. -/
theorem hexChar_mem (n : Nat) : hexChar n ∈ hexDigitChars := by
  unfold hexChar
  rw [List.getD_eq_getElem?_getD]
  rcases h : hexDigitChars[n]? with _ | c
  · simp only [h, Option.getD_none]
    decide
  · simpa using List.getElem?_mem h

/-- Every character emitted by the byte-to-hex encoder is a lowercase
hexadecimal digit. -/
theorem hexOfBytes_mem {c : Char} : ∀ {bs : List Nat}, c ∈ hexOfBytes bs → c ∈ hexDigitChars := by
  intro bs
  induction bs with
  | nil => intro h; simp [hexOfBytes] at h
  | cons b bs ih =>
    intro h
    simp only [hexOfBytes, List.mem_cons] at h
    rcases h with rfl | rfl | h
    · exact hexChar_mem _
    · exact hexChar_mem _
    · exact ih h

/-- The hex encoding of a byte list has twice its length. -/
theorem hexOfBytes_length : ∀ bs : List Nat, (hexOfBytes bs).length = 2 * bs.length := by
  intro bs
  induction bs with
  | nil => rfl
  | cons b bs ih =>
    simp only [hexOfBytes, List.length_cons, ih]
    omega

/-- Keccak-256 always squeezes exactly 32 bytes. -/
theorem keccak256Bytes_length (msg : List Nat) : (keccak256Bytes msg).length = 32 := by
  simp [keccak256Bytes, keccakOutBytes]

/-- The truncated digest of any text has the C7 format. -/
theorem getKeccak256_format (t : String) : digestFormat (getKeccak256 t) := by
  have hlen : (hexOfBytes (keccak256Bytes (utf8Bytes t))).length = 64 := by
    rw [hexOfBytes_length, keccak256Bytes_length]
  show (('0' :: 'x' :: hexOfBytes (keccak256Bytes (utf8Bytes t))).take 10).length = 10 ∧
    (('0' :: 'x' :: hexOfBytes (keccak256Bytes (utf8Bytes t))).take 10).take 2 = ['0', 'x'] ∧
    ∀ c ∈ (('0' :: 'x' :: hexOfBytes (keccak256Bytes (utf8Bytes t))).take 10).drop 2,
      c ∈ hexDigitChars
  rw [List.take_succ_cons, List.take_succ_cons]
  refine ⟨?_, rfl, ?_⟩
  · simp [List.length_take, hlen]
  · intro c hc
    simp only [List.drop_succ_cons, List.drop_zero] at hc
    exact hexOfBytes_mem (List.take_subset _ _ hc)

/-- C7: in every record set script 2 produces, the digest of every record
of every kind — functions, errors, requires and getters alike — is `0x`
followed by exactly eight lowercase hexadecimal characters (the Keccak-256
of the canonical text truncated to 10 characters). -/
theorem c7_digest_format (src : String) (recs : Recs2)
    (h : calculateSignatures2 src = some recs) :
    (∀ r ∈ recs.functions, digestFormat r.signature) ∧
    (∀ r ∈ recs.errors, digestFormat r.signature) ∧
    (∀ r ∈ recs.requireStmts, digestFormat r.signature) ∧
    (∀ g ∈ recs.getters, digestFormat g.signature) := by
  obtain ⟨h1, h2, h3, h4, -, -, -⟩ := go2_inv (splitChar '\n' src.data) 0 recs h
  refine ⟨fun r hr => ?_, fun r hr => ?_, fun r hr => ?_, fun g hg => ?_⟩
  · obtain ⟨t, ht⟩ := (h1 r hr).2
    rw [ht]; exact getKeccak256_format t
  · obtain ⟨t, ht⟩ := (h2 r hr).2
    rw [ht]; exact getKeccak256_format t
  · obtain ⟨t, ht⟩ := (h3 r hr).2
    rw [ht]; exact getKeccak256_format t
  · obtain ⟨t, ht⟩ := h4 g hg
    rw [ht]; exact getKeccak256_format t

/-- Witness for `c7_digest_format` at a one-function source. -/
theorem c7_witness :
    (∀ r ∈ ([⟨1, "f()", getKeccak256 "f()"⟩] : List LineRec), digestFormat r.signature) ∧
    (∀ r ∈ ([] : List LineRec), digestFormat r.signature) ∧
    (∀ r ∈ ([] : List LineRec), digestFormat r.signature) ∧
    (∀ g ∈ ([] : List GetterRec), digestFormat g.signature) :=
  c7_digest_format "function f()" ⟨[⟨1, "f()", getKeccak256 "f()"⟩], [], [], []⟩ (by decide)

/-! ## C10 -/

/-- A word character is never whitespace. -/
theorem word_not_sp {c : Char} (h : isWordChar c = true) : isSp c = false := by
  unfold isSp
  by_contra hc
  simp only [Bool.not_eq_false, Bool.or_eq_true, decide_eq_true_eq] at hc
  rcases hc with ((((rfl | rfl) | rfl) | rfl) | rfl) | rfl <;> revert h <;> decide

/-- `takeWhile` keeps a list all of whose elements satisfy the predicate. -/
theorem takeWhileAll {p : Char → Bool} :
    ∀ {l : List Char}, (∀ c ∈ l, p c = true) → l.takeWhile p = l := by
  intro l
  induction l with
  | nil => intro _; rfl
  | cons c cs ih =>
    intro h
    rw [List.takeWhile_cons_of_pos (h c (by simp)), ih (fun x hx => h x (by simp [hx]))]

/-- `dropWhile` empties a list all of whose elements satisfy the predicate. -/
theorem dropWhileAllNil {p : Char → Bool} :
    ∀ {l : List Char}, (∀ c ∈ l, p c = true) → l.dropWhile p = [] := by
  intro l
  induction l with
  | nil => intro _; rfl
  | cons c cs ih =>
    intro h
    rw [List.dropWhile_cons_of_pos (h c (by simp)), ih (fun x hx => h x (by simp [hx]))]

/-- `dropWhile` keeps a list none of whose elements satisfies the
predicate. -/
theorem dropWhileNone {p : Char → Bool} {l : List Char}
    (h : ∀ c ∈ l, p c = false) : l.dropWhile p = l := by
  cases l with
  | nil => rfl
  | cons c cs => rw [List.dropWhile_cons_of_neg (by simp [h c (by simp)])]

/-- Trimming does not change an all-word-character list. -/
theorem trimJS_word {w : List Char} (h : ∀ c ∈ w, isWordChar c = true) : trimJS w = w := by
  have hns : ∀ c ∈ w, isSp c = false := fun c hc => word_not_sp (h c hc)
  unfold trimJS
  rw [dropWhileNone hns, dropWhileNone (fun c hc => hns c (List.mem_reverse.1 hc)),
    List.reverse_reverse]

/-- The canonicalizer regex matches a nonempty all-word-character list
whole, with an empty bracket capture. -/
theorem matchTail_word {w : List Char} (hne : w ≠ []) (h : ∀ c ∈ w, isWordChar c = true) :
    matchTail w = some (w, []) := by
  unfold matchTail
  rw [List.span_eq_take_drop, takeWhileAll h, dropWhileAllNil h]
  simp [hne]

/-- Leftmost search finds the whole-list match on a nonempty
all-word-character list. -/
theorem findTail_word {w : List Char} (hne : w ≠ []) (h : ∀ c ∈ w, isWordChar c = true) :
    findTail w = some (w, []) := by
  cases w with
  | nil => exact absurd rfl hne
  | cons c cs => simp only [findTail, matchTail_word hne h]

/-- Script 2's canonicalizer succeeds (and is the identity) on a nonempty
all-word-character fragment. -/
theorem canonicalType2_word {w : List Char} (hne : w ≠ [])
    (h : ∀ c ∈ w, isWordChar c = true) :
    canonicalType2 (String.mk w) = some (String.mk w) := by
  unfold canonicalType2
  rw [show (String.mk w).data = w from rfl, trimJS_word h, findTail_word hne h]
  rfl

/-- The `type` capture of the assignment matcher is a nonempty word. -/
theorem varMatchAt_word {u : List Char} {t n : String}
    (h : varMatchAt u = some (t, n)) :
    t.data ≠ [] ∧ ∀ c ∈ t.data, isWordChar c = true := by
  unfold varMatchAt at h
  simp only [List.span_eq_take_drop] at h
  split at h
  · exact absurd h (by simp)
  next hemp =>
    split at h
    · exact absurd h (by simp)
    next =>
      split at h
      · exact absurd h (by simp)
      next =>
        split at h
        next r5 heq =>
          split at h
          next =>
            injection h with h'
            injection h' with ha hb
            subst ha
            refine ⟨by simpa using hemp, fun c hc => List.mem_takeWhile_imp hc⟩
          next => exact absurd h (by simp)
        next => exact absurd h (by simp)

/-- The `type` capture of the leftmost assignment match is a nonempty
word. -/
theorem varFindGo_word : ∀ (l : List Char) (b : Bool) {t n : String},
    varFindGo b l = some (t, n) →
    t.data ≠ [] ∧ ∀ c ∈ t.data, isWordChar c = true := by
  intro l
  induction l with
  | nil => intro b t n h; simp [varFindGo] at h
  | cons c cs ih =>
    intro b t n h
    unfold varFindGo at h
    split at h
    · split at h
      next r heq =>
        injection h with h'
        subst h'
        exact varMatchAt_word heq
      next => exact ih true h
    · exact ih (isWordChar c) h

/-- C10: script 2 produces a getter record for a line exactly when the line
contains the standalone word `public` and matches the assignment pattern
`word word = expr;`; in particular a public state variable declared without
an initializer produces no record of any kind. -/
theorem c10_getter_iff :
    (∀ l : String, (∃ g, getterRec2 l.data = some (some g)) ↔
        (hasWordPublic l.data = true ∧ (lineVar l.data).isSome = true)) ∧
    calculateSignatures2 "uint256 public totalSupply;" = some ⟨[], [], [], []⟩ := by
  constructor
  · intro l
    constructor
    · rintro ⟨g, hg⟩
      unfold getterRec2 at hg
      split at hg
      next hpub =>
        refine ⟨hpub, ?_⟩
        rcases hv : lineVar l.data with _ | p
        · rw [hv] at hg; exact absurd hg (by simp)
        · simp [hv]
      next => exact absurd hg (by simp)
    · rintro ⟨hpub, hv⟩
      rcases ho : lineVar l.data with _ | ⟨t, n⟩
      · rw [ho] at hv; simp at hv
      · have hw := varFindGo_word l.data false ho
        have hct : canonicalType2 t = some t := canonicalType2_word hw.1 hw.2
        have hform : getCanonicalForm2 n [t] =
            some (n ++ "(" ++ joinWith "," [t] ++ ")") := by
          unfold getCanonicalForm2
          rw [show List.mapM canonicalType2 [t] = some [t] from by
            simp [List.mapM, List.mapM.loop, hct]]
          rfl
        refine ⟨⟨n ++ "(" ++ joinWith "," [t] ++ ")",
          getKeccak256 (n ++ "(" ++ joinWith "," [t] ++ ")")⟩, ?_⟩
        show getterRec2 l.data = _
        unfold getterRec2
        rw [if_pos hpub, ho]
        show (getCanonicalForm2 n [t]).map _ = _
        rw [hform]
        rfl
  · decide

/-- Witness for `c10_getter_iff`: the claim's initialized example line does
produce a getter. -/
theorem c10_witness :
    ∃ g, getterRec2 ("uint256 public totalSupply = 0;").data = some (some g) :=
  (c10_getter_iff.1 "uint256 public totalSupply = 0;").mpr ⟨by decide, by decide⟩

end SigDecoder
